import Mathlib

/-!
Verification development for the `json-writer` crate (`src/lib.rs`).

Strings and buffers are modelled as `List Nat` of byte values; every Rust
function relevant to the claims is translated into an executable Lean
definition over that representation, and the spec's properties are proved
about those definitions.
-/

set_option linter.unusedVariables false

/-- Translation of the constant lookup table built by `get_replacements`
(`src/lib.rs:867-890`): indices `0..0x1F` map to `b'u'` (117), then the
specific overrides `'"'`(34), `'\\'`(92), `'/'`(47), `8 -> b'b'`(98),
`0xC -> b'f'`(102), `'\n'`(10) `-> b'n'`(110), `'\r'`(13) `-> b'r'`(114),
`'\t'`(9) `-> b't'`(116); all other bytes map to 0 (no replacement). -/
def REPLACEMENTS (b : Nat) : Nat :=
  if b = 34 then 34
  else if b = 92 then 92
  else if b = 47 then 47
  else if b = 8 then 98
  else if b = 12 then 102
  else if b = 10 then 110
  else if b = 13 then 114
  else if b = 9 then 116
  else if b < 32 then 117
  else 0

/-- Translation of `static HEX: [u8; 16] = *b"0123456789ABCDEF"`
(`src/lib.rs:891`). -/
def HEX : List Nat := [48, 49, 50, 51, 52, 53, 54, 55, 56, 57, 65, 66, 67, 68, 69, 70]

/-- Translation of the scan loop of `write_part_of_string_impl`
(`src/lib.rs:897-940`). The Rust `while index < bytes.len()` loop is
rendered as recursion over `remaining = input.drop index`, keeping the
`index` and `num_bytes_written` counters of the source; unescaped bytes
are copied in maximal runs `input[num_bytes_written..index]` exactly as in
the source. -/
def writeLoopAux (input : List Nat) (remaining : List Nat) (index num_bytes_written : Nat)
    (output_buffer : List Nat) : List Nat :=
  match remaining with
  | [] =>
    if num_bytes_written < input.length then
      output_buffer ++ ((input.drop num_bytes_written).take (input.length - num_bytes_written))
    else output_buffer
  | cur_byte :: rest =>
    let replacement := REPLACEMENTS cur_byte
    if replacement ≠ 0 then
      let output_buffer :=
        if num_bytes_written < index then
          output_buffer ++ ((input.drop num_bytes_written).take (index - num_bytes_written))
        else output_buffer
      let output_buffer :=
        if replacement = 117 then
          output_buffer ++
            [92, 117, 48, 48, HEX.getD (cur_byte / 16 % 16) 0, HEX.getD (cur_byte % 16) 0]
        else output_buffer ++ [92, replacement]
      writeLoopAux input rest (index + 1) (index + 1) output_buffer
    else
      writeLoopAux input rest (index + 1) num_bytes_written output_buffer

/-- Translation of `write_part_of_string_impl` (`src/lib.rs:897-940`):
escapes `input` and appends the result to `output_buffer`. -/
def write_part_of_string_impl (output_buffer input : List Nat) : List Nat :=
  writeLoopAux input input 0 0 output_buffer

/-- Translation of `write_string` (`src/lib.rs:853-857`): quote, escaped
body, quote, appended to the buffer. 34 is the byte of the quote char. -/
def write_string (output_buffer input : List Nat) : List Nat :=
  write_part_of_string_impl (output_buffer ++ [34]) input ++ [34]

/-- Translation of `write_part_of_string` (`src/lib.rs:863-865`). -/
def write_part_of_string (output_buffer input : List Nat) : List Nat :=
  write_part_of_string_impl output_buffer input

/-- Per-byte escape produced by the source's replacement table: the escape
sequence `write_part_of_string_impl` appends for one byte. -/
def escByte (b : Nat) : List Nat :=
  let r := REPLACEMENTS b
  if r = 0 then [b]
  else if r = 117 then [92, 117, 48, 48, HEX.getD (b / 16 % 16) 0, HEX.getD (b % 16) 0]
  else [92, r]

/-- Concatenated per-byte escapes of a whole byte string. -/
def escapeList : List Nat → List Nat
  | [] => []
  | b :: rest => escByte b ++ escapeList rest

/-- Modelled from the spec's words (escape table of spec sections 4.1 and 6,
uppercase hex digits): an independent, spec-side description of the escape
of a single byte, to be compared with the source-derived `escByte`. -/
def specEscape (b : Nat) : List Nat :=
  if b = 34 then [92, 34]
  else if b = 92 then [92, 92]
  else if b = 47 then [92, 47]
  else if b = 8 then [92, 98]
  else if b = 9 then [92, 116]
  else if b = 10 then [92, 110]
  else if b = 12 then [92, 102]
  else if b = 13 then [92, 114]
  else if b < 32 then [92, 117, 48, 48, (if b / 16 < 10 then 48 + b / 16 else 55 + b / 16),
    (if b % 16 < 10 then 48 + b % 16 else 55 + b % 16)]
  else [b]

/-- Spec-side escape of a whole byte string. -/
def specEscapeList : List Nat → List Nat
  | [] => []
  | b :: rest => specEscape b ++ specEscapeList rest

lemma escapeList_append (s t : List Nat) :
    escapeList (s ++ t) = escapeList s ++ escapeList t := by
  induction s with
  | nil => simp [escapeList]
  | cons b rest ih => simp [escapeList, ih]

lemma writeLoopAux_eq (input : List Nat) (remaining : List Nat) :
    ∀ (index num_bytes_written : Nat) (out : List Nat),
    remaining = input.drop index →
    num_bytes_written ≤ index →
    (∀ j, num_bytes_written ≤ j → j < index → REPLACEMENTS (input.getD j 0) = 0) →
    writeLoopAux input remaining index num_bytes_written out =
      out ++ (input.drop num_bytes_written).take (index - num_bytes_written) ++
        escapeList remaining := by
  induction remaining with
  | nil =>
    intro index nbw out hrem h1 h2
    have hlen : input.length ≤ index := by
      by_contra hlt
      push_neg at hlt
      have := List.drop_eq_getElem_cons (n := index) (l := input) hlt
      rw [← hrem] at this
      exact List.noConfusion this
    simp only [writeLoopAux, escapeList, List.append_nil]
    by_cases hb : nbw < input.length
    · have h3 : (input.drop nbw).take (input.length - nbw) = input.drop nbw := by
        apply List.take_of_length_le
        simp
      have h4 : (input.drop nbw).take (index - nbw) = input.drop nbw := by
        apply List.take_of_length_le
        simp
        omega
      rw [if_pos hb, h3, h4]
    · push_neg at hb
      have hdrop : input.drop nbw = [] := List.drop_eq_nil_of_le hb
      rw [if_neg (by omega), hdrop]
      simp
  | cons cur rest ih =>
    intro index nbw out hrem h1 h2
    have hidx : index < input.length := by
      by_contra hge
      push_neg at hge
      have : input.drop index = [] := List.drop_eq_nil_of_le hge
      rw [this] at hrem
      exact List.noConfusion hrem
    have hcur : input.getD index 0 = cur := by
      have h0 : (input.drop index)[0]? = input[index + 0]? := List.getElem?_drop input index 0
      rw [← hrem] at h0
      simp at h0
      simp [List.getD_eq_getElem?_getD, ← h0]
    have hrest : rest = input.drop (index + 1) := by
      have := List.tail_drop input index
      rw [← hrem] at this
      simpa using this
    have htake : (input.drop nbw).take (index + 1 - nbw) =
        (input.drop nbw).take (index - nbw) ++ [cur] := by
      have hstep : index + 1 - nbw = (index - nbw) + 1 := by omega
      rw [hstep, List.take_succ]
      have hg : (input.drop nbw)[index - nbw]? = input[index]? := by
        rw [List.getElem?_drop]
        congr 1
        omega
      rw [hg, List.getElem?_eq_getElem hidx]
      have : input[index] = cur := by
        have := hcur
        simp [List.getD_eq_getElem?_getD, List.getElem?_eq_getElem hidx] at this
        exact this
      simp [this]
    rw [writeLoopAux]
    by_cases hr : REPLACEMENTS cur ≠ 0
    · rw [if_pos hr]
      have hout : (if nbw < index then
            out ++ (input.drop nbw).take (index - nbw)
          else out) = out ++ (input.drop nbw).take (index - nbw) := by
        by_cases hlt : nbw < index
        · rw [if_pos hlt]
        · have : nbw = index := by omega
          subst this
          simp
      rw [hout]
      rw [ih (index + 1) (index + 1) _ hrest (Nat.le_refl _) (by intro j hj1 hj2; omega)]
      simp only [Nat.sub_self, List.take_zero, List.append_nil, escapeList]
      have hesc : escByte cur =
          if REPLACEMENTS cur = 117 then
            [92, 117, 48, 48, HEX.getD (cur / 16 % 16) 0, HEX.getD (cur % 16) 0]
          else [92, REPLACEMENTS cur] := by
        rw [escByte]
        simp only [if_neg hr]
      by_cases h117 : REPLACEMENTS cur = 117
      · rw [if_pos h117, hesc, if_pos h117]
        simp
      · rw [if_neg h117, hesc, if_neg h117]
        simp
    · push_neg at hr
      rw [if_neg (by simpa using hr)]
      rw [ih (index + 1) nbw _ hrest (by omega)
        (by
          intro j hj1 hj2
          by_cases hj : j < index
          · exact h2 j hj1 hj
          · have : j = index := by omega
            subst this
            rw [hcur]
            exact hr)]
      rw [htake]
      have hescb : escByte cur = [cur] := by
        simp [escByte, hr]
      simp [escapeList, hescb]

lemma write_part_of_string_impl_eq (out s : List Nat) :
    write_part_of_string_impl out s = out ++ escapeList s := by
  rw [write_part_of_string_impl,
    writeLoopAux_eq s s 0 0 out (by simp) (Nat.le_refl 0) (by intro j h1 h2; omega)]
  simp

lemma write_string_eq (out s : List Nat) :
    write_string out s = out ++ [34] ++ escapeList s ++ [34] := by
  rw [write_string, write_part_of_string_impl_eq]

set_option maxRecDepth 4096 in
lemma escByte_eq_specEscape : ∀ b, b < 256 → escByte b = specEscape b := by
  decide

lemma escapeList_eq_specEscapeList (s : List Nat) (h : ∀ b ∈ s, b < 256) :
    escapeList s = specEscapeList s := by
  induction s with
  | nil => rfl
  | cons b rest ih =>
    rw [escapeList, specEscapeList, escByte_eq_specEscape b (h b (by simp)),
      ih (fun x hx => h x (by simp [hx]))]

/-- C1: for every byte string `s` of bytes `< 256`, the escaped fragment
produced by `write_part_of_string` (and wrapped in quotes by
`write_string`) is the concatenation, byte for byte, of the spec's escape
table: `"` `\` `/` and the named control characters get their two-character
escapes, every other byte below 0x20 becomes `\u00XX` with uppercase hex
digits, and every other byte — in particular every byte ≥ 0x80 — passes
through unchanged. -/
theorem escape_matches_spec_table (s : List Nat) (h : ∀ b ∈ s, b < 256) :
    write_part_of_string [] s = specEscapeList s ∧
    write_string [] s = [34] ++ specEscapeList s ++ [34] := by
  constructor
  · rw [write_part_of_string, write_part_of_string_impl_eq,
      escapeList_eq_specEscapeList s h]
    simp
  · rw [write_string_eq, escapeList_eq_specEscapeList s h]
    simp

/-- Witness for C1 at the concrete input `[10, 34, 200]` (a newline, a
quote, and a byte ≥ 0x80): the output is `\n` then `\"` then the raw byte. -/
theorem escape_matches_spec_table_witness :
    write_part_of_string [] [10, 34, 200] = [92, 110, 92, 34, 200] ∧
    specEscapeList [10, 34, 200] = [92, 110, 92, 34, 200] :=
  ⟨(escape_matches_spec_table [10, 34, 200] (by decide)).1.trans (by decide), by decide⟩

/-- Translation of the `JSONWriter` trait (`src/lib.rs:185-272`): the sink
contract. `&mut self` methods become state-passing functions. Default
method bodies follow the trait's defaults and are overridden by the
instances exactly where the source overrides them. -/
class JSONWriter (W : Type) where
  json_string : W → List Nat → W
  json_fragment : W → List Nat → W
  json_begin_object : W → W := fun w => json_fragment w [123]
  json_end_object : W → Bool → W := fun w _ => json_fragment w [125]
  json_begin_array : W → W := fun w => json_fragment w [91]
  json_end_array : W → Bool → W := fun w _ => json_fragment w [93]
  json_begin_array_value : W → Bool → W :=
    fun w first => if first then w else json_fragment w [44]
  json_object_key : W → List Nat → Bool → W :=
    fun w key first =>
      json_fragment (json_string (if first then w else json_fragment w [44]) key) [58]

export JSONWriter (json_string json_fragment json_begin_object json_end_object
  json_begin_array json_end_array json_begin_array_value json_object_key)

/-- Translation of the trait default `json_null` (`src/lib.rs:188-190`):
writes the bytes of the token `null`. -/
def json_null {W : Type} [JSONWriter W] (w : W) : W :=
  json_fragment w [110, 117, 108, 108]

/-- Translation of the trait default `json_bool` (`src/lib.rs:193-195`):
writes the bytes of `true` or `false`. -/
def json_bool {W : Type} [JSONWriter W] (w : W) (value : Bool) : W :=
  json_fragment w (if value then [116, 114, 117, 101] else [102, 97, 108, 115, 101])

/-- Translation of the trait default `json_number_str` (`src/lib.rs:219-221`). -/
def json_number_str {W : Type} [JSONWriter W] (w : W) (value : List Nat) : W :=
  json_fragment w value

/-- Model of an IEEE-754 binary64 value as the writer observes it: the
source only calls `f64::is_finite` on it and, for finite values, the
decimal rendering produced by the external `ryu` crate; that rendering is
carried as data. -/
inductive F64 where
  | nan
  | posInf
  | negInf
  | finite (ryuRendered : List Nat)

/-- Model of `f64::is_finite` over `F64`. -/
def F64.is_finite : F64 → Bool
  | .finite _ => true
  | _ => false

/-- Model of `ryu::Buffer::format_finite` over `F64`: returns the carried
rendering (only reached on finite values in `json_number_f64`). -/
def F64.format_finite : F64 → List Nat
  | .finite r => r
  | _ => []

/-- Translation of the `.0`-stripping step of `json_number_f64`
(`src/lib.rs:211-213`): if the rendered text ends with the two bytes `.0`
(46, 48), truncate them. -/
def stripTrailingDotZero (s : List Nat) : List Nat :=
  if 2 ≤ s.length ∧ s.drop (s.length - 2) = [46, 48] then s.take (s.length - 2) else s

/-- Translation of the trait default `json_number_f64` (`src/lib.rs:202-215`):
non-finite values become the null token, finite values are rendered by ryu
with a trailing `.0` stripped. -/
def json_number_f64 {W : Type} [JSONWriter W] (w : W) (value : F64) : W :=
  if !value.is_finite then
    json_null w
  else
    json_number_str w (stripTrailingDotZero value.format_finite)

/-- Translation of `impl JSONWriter for String` (`src/lib.rs:474-532`), the
compact sink writing into a byte buffer. -/
instance StringSink : JSONWriter (List Nat) where
  json_string w value := write_string w value
  json_fragment w value := w ++ value
  json_begin_object w := w ++ [123]
  json_end_object w _ := w ++ [125]
  json_begin_array w := w ++ [91]
  json_end_array w _ := w ++ [93]
  json_begin_array_value w first := if first then w else w ++ [44]
  json_object_key w key first :=
    write_string (if first then w else w ++ [44]) key ++ [58]

/-- Translation of `struct PrettyJSONWriter` (`src/lib.rs:535-540`). -/
structure PrettyJSONWriter where
  buffer : List Nat
  indent : List Nat
  depth : Nat

/-- Translation of `PrettyJSONWriter::new` (`src/lib.rs:544-551`): two
spaces of indentation, depth 0. -/
def PrettyJSONWriter.new (buffer : List Nat) : PrettyJSONWriter :=
  { buffer := buffer, indent := [32, 32], depth := 0 }

/-- Translation of `PrettyJSONWriter::with_indent` (`src/lib.rs:554-560`). -/
def PrettyJSONWriter.with_indent (buffer indent : List Nat) : PrettyJSONWriter :=
  { buffer := buffer, indent := indent, depth := 0 }

/-- Translation of `PrettyJSONWriter::write_indent` (`src/lib.rs:562-566`):
pushes the indent unit `depth` times. -/
def PrettyJSONWriter.write_indent (p : PrettyJSONWriter) : PrettyJSONWriter :=
  { p with buffer := p.buffer ++ (List.replicate p.depth p.indent).flatten }

/-- Translation of `impl JSONWriter for PrettyJSONWriter`
(`src/lib.rs:569-617`). -/
instance PrettySink : JSONWriter PrettyJSONWriter where
  json_begin_object p := { p with depth := p.depth + 1, buffer := p.buffer ++ [123] }
  json_end_object p empty :=
    let p := { p with depth := p.depth - 1 }
    let p := if empty then p else
      PrettyJSONWriter.write_indent { p with buffer := p.buffer ++ [10] }
    { p with buffer := p.buffer ++ [125] }
  json_begin_array p := { p with depth := p.depth + 1, buffer := p.buffer ++ [91] }
  json_end_array p empty :=
    let p := { p with depth := p.depth - 1 }
    let p := if empty then p else
      PrettyJSONWriter.write_indent { p with buffer := p.buffer ++ [10] }
    { p with buffer := p.buffer ++ [93] }
  json_begin_array_value p first :=
    PrettyJSONWriter.write_indent
      { p with buffer := p.buffer ++ (if first then [10] else [44, 10]) }
  json_object_key p key first :=
    let p := PrettyJSONWriter.write_indent
      { p with buffer := p.buffer ++ (if first then [10] else [44, 10]) }
    let p := { p with buffer := write_string p.buffer key }
    { p with buffer := p.buffer ++ [58, 32] }
  json_string p value := { p with buffer := write_string p.buffer value }
  json_fragment p value := { p with buffer := p.buffer ++ value }

/-- Translation of `struct JSONObjectWriter` (`src/lib.rs:148-157`): the
sink it exclusively borrows, held by value in the state-passing model, and
the `empty` flag. -/
structure JSONObjectWriter (W : Type) [JSONWriter W] where
  writer : W
  empty : Bool

/-- Translation of `struct JSONArrayWriter` (`src/lib.rs:165-174`). -/
structure JSONArrayWriter (W : Type) [JSONWriter W] where
  writer : W
  empty : Bool

/-- Translation of `JSONObjectWriter::new` (`src/lib.rs:286-292`): emits the
opening brace to the sink immediately. -/
def JSONObjectWriter.new {W : Type} [JSONWriter W] (writer : W) : JSONObjectWriter W :=
  { writer := json_begin_object writer, empty := true }

/-- Translation of `JSONObjectWriter::write_key` (`src/lib.rs:335-338`). -/
def JSONObjectWriter.write_key {W : Type} [JSONWriter W] (o : JSONObjectWriter W)
    (key : List Nat) : JSONObjectWriter W :=
  { writer := json_object_key o.writer key o.empty, empty := false }

/-- Translation of `JSONObjectWriter::value` (`src/lib.rs:320-323`): the
value's `write_json` is passed as the sink transformation it performs. -/
def JSONObjectWriter.value {W : Type} [JSONWriter W] (o : JSONObjectWriter W)
    (key : List Nat) (write_json : W → W) : JSONObjectWriter W :=
  let o' := o.write_key key
  { o' with writer := write_json o'.writer }

/-- Translation of `impl Drop for JSONObjectWriter` (`src/lib.rs:372-377`):
emits the closing brace with the accumulated `empty` flag and gives the
borrowed sink back. -/
def JSONObjectWriter.drop {W : Type} [JSONWriter W] (o : JSONObjectWriter W) : W :=
  json_end_object o.writer o.empty

/-- Translation of `JSONObjectWriter::end` (`src/lib.rs:345-347`), which
just drops the writer (`end` is a Lean keyword, hence the apostrophe). -/
def JSONObjectWriter.end' {W : Type} [JSONWriter W] (o : JSONObjectWriter W) : W :=
  o.drop

/-- Translation of `JSONObjectWriter::object` (`src/lib.rs:300-303`): write
the key, then open a nested object writer over the same sink. -/
def JSONObjectWriter.object {W : Type} [JSONWriter W] (o : JSONObjectWriter W)
    (key : List Nat) : JSONObjectWriter W :=
  JSONObjectWriter.new (o.write_key key).writer

/-- Translation of `JSONObjectWriter::array` (`src/lib.rs:311-314`). -/
def JSONObjectWriter.array {W : Type} [JSONWriter W] (o : JSONObjectWriter W)
    (key : List Nat) : JSONArrayWriter W :=
  { writer := json_begin_array (o.write_key key).writer, empty := true }

/-- Translation of `JSONArrayWriter::new` (`src/lib.rs:384-390`): emits the
opening bracket to the sink immediately. -/
def JSONArrayWriter.new {W : Type} [JSONWriter W] (writer : W) : JSONArrayWriter W :=
  { writer := json_begin_array writer, empty := true }

/-- Translation of `JSONArrayWriter::write_comma` (`src/lib.rs:431-434`). -/
def JSONArrayWriter.write_comma {W : Type} [JSONWriter W] (a : JSONArrayWriter W) :
    JSONArrayWriter W :=
  { writer := json_begin_array_value a.writer a.empty, empty := false }

/-- Translation of `JSONArrayWriter::value` (`src/lib.rs:417-421`). -/
def JSONArrayWriter.value {W : Type} [JSONWriter W] (a : JSONArrayWriter W)
    (write_json : W → W) : JSONArrayWriter W :=
  let a' := a.write_comma
  { a' with writer := write_json a'.writer }

/-- Translation of `impl Drop for JSONArrayWriter` (`src/lib.rs:446-451`). -/
def JSONArrayWriter.drop {W : Type} [JSONWriter W] (a : JSONArrayWriter W) : W :=
  json_end_array a.writer a.empty

/-- Translation of `JSONArrayWriter::end` (`src/lib.rs:441-443`). -/
def JSONArrayWriter.end' {W : Type} [JSONWriter W] (a : JSONArrayWriter W) : W :=
  a.drop

/-- Modelled from the spec: the external `itoa` crate renders integers with
exact decimal digits and a leading `-` for negatives, no leading zeros
(spec section 6, "Number rendering"). Digit accumulator, structural in the
fuel so it evaluates in the kernel; `fuel = n` always suffices. -/
def natDecimalAux : Nat → Nat → List Nat → List Nat
  | 0, _, acc => acc
  | fuel + 1, n, acc => if n = 0 then acc else natDecimalAux fuel (n / 10) ((48 + n % 10) :: acc)

/-- Decimal rendering of a natural number in ASCII bytes. -/
def natDecimal (n : Nat) : List Nat :=
  if n = 0 then [48] else natDecimalAux n n []

/-- Modelled from the spec: `itoa::Buffer::format` for signed integers —
decimal digits with a leading `-` (45) for negatives. -/
def itoaFormat (v : Int) : List Nat :=
  if v < 0 then 45 :: natDecimal v.natAbs else natDecimal v.toNat

/-- Translation of the `JSONWriterValue` impls for the fixed-width integer
types (`src/lib.rs:664-742`): render through `itoa`, then `json_number_str`. -/
def writeJsonInt {W : Type} [JSONWriter W] (v : Int) (w : W) : W :=
  json_number_str w (itoaFormat v)

/-- Translation of `output_buffer_to` (`src/lib.rs:835-847`). The external
`std::io::Write` collaborator is a function from the bytes handed to
`write_all` to `Except ε Unit`; the returned pair is (call result, buffer
contents after the call). -/
def output_buffer_to {ε : Type} (buffer : List Nat)
    (write_all : List Nat → Except ε Unit) : Except ε Nat × List Nat :=
  match write_all buffer with
  | .ok _ => (.ok buffer.length, [])
  | .error err => (.error err, buffer)

/-- C2: a non-finite double — NaN, positive infinity or negative infinity —
is rendered by `json_number_f64` as exactly the token `null` appended to
the buffer, and nothing else. -/
theorem nonfinite_f64_renders_null (v : F64) (b : List Nat)
    (h : v = F64.nan ∨ v = F64.posInf ∨ v = F64.negInf) :
    json_number_f64 (W := List Nat) b v = b ++ [110, 117, 108, 108] := by
  rcases h with h | h | h <;> subst h <;> rfl

/-- Witness for C2 at `F64.nan` and the empty buffer: the output is the
four bytes of `null`. -/
theorem nonfinite_f64_renders_null_witness :
    json_number_f64 (W := List Nat) [] F64.nan = [110, 117, 108, 108] :=
  nonfinite_f64_renders_null F64.nan [] (Or.inl rfl)

/-- C4: closing an object or array scope into which no member was written
yields exactly the two bytes of the empty brackets with no interior
whitespace — for the compact `String` sink, and for the pretty sink at
every buffer, indent and nesting depth (the depth is also restored). -/
theorem empty_scopes_render_bare_brackets :
    (∀ b : List Nat, (JSONObjectWriter.new b).drop = b ++ [123, 125]) ∧
    (∀ b : List Nat, (JSONArrayWriter.new b).drop = b ++ [91, 93]) ∧
    (∀ p : PrettyJSONWriter,
      (JSONObjectWriter.new p).drop =
        { buffer := p.buffer ++ [123, 125], indent := p.indent, depth := p.depth }) ∧
    (∀ p : PrettyJSONWriter,
      (JSONArrayWriter.new p).drop =
        { buffer := p.buffer ++ [91, 93], indent := p.indent, depth := p.depth }) := by
  refine ⟨fun b => by simp [JSONObjectWriter.new, JSONObjectWriter.drop, StringSink,
      json_begin_object, json_end_object],
    fun b => by simp [JSONArrayWriter.new, JSONArrayWriter.drop, StringSink,
      json_begin_array, json_end_array],
    fun p => ?_, fun p => ?_⟩ <;>
  · simp [JSONObjectWriter.new, JSONObjectWriter.drop, JSONArrayWriter.new,
      JSONArrayWriter.drop, PrettySink, json_begin_object, json_end_object,
      json_begin_array, json_end_array]

/-- C5: no key-uniqueness check — writing key `n` with 42 and then key `n`
with 43 through `value` on a fresh object writer over the `String` sink
yields exactly the bytes of `{"n":42,"n":43}` (braces, quoted keys, colon,
comma), both pairs verbatim and in call order. -/
theorem duplicate_keys_preserved_verbatim :
    (((JSONObjectWriter.new ([] : List Nat)).value [110] (writeJsonInt (Int.ofNat 42))).value
        [110] (writeJsonInt (Int.ofNat 43))).drop =
      [123, 34, 110, 34, 58, 52, 50, 44, 34, 110, 34, 58, 52, 51, 125] := by
  decide

/-- C7: each scoped writer emits its opening bracket to the sink exactly
once at construction — the buffer after `new` is the old buffer plus the
single opening byte, the `empty` flag starts true — and emits the matching
closing bracket exactly once when the scope ends; `end` just drops the
writer, so both exit paths produce identical output (stated for every sink
type for `end` versus drop, and concretely for the compact sink's single
opening and closing byte). -/
theorem brackets_emitted_once_end_eq_drop :
    (∀ b : List Nat, (JSONObjectWriter.new b).writer = b ++ [123] ∧
      (JSONObjectWriter.new b).empty = true) ∧
    (∀ o : JSONObjectWriter (List Nat), o.drop = o.writer ++ [125]) ∧
    (∀ b : List Nat, (JSONArrayWriter.new b).writer = b ++ [91] ∧
      (JSONArrayWriter.new b).empty = true) ∧
    (∀ a : JSONArrayWriter (List Nat), a.drop = a.writer ++ [93]) ∧
    (∀ (W : Type) (inst : JSONWriter W) (o : JSONObjectWriter W), o.end' = o.drop) ∧
    (∀ (W : Type) (inst : JSONWriter W) (a : JSONArrayWriter W), a.end' = a.drop) := by
  exact ⟨fun b => ⟨rfl, rfl⟩, fun o => rfl, fun b => ⟨rfl, rfl⟩, fun a => rfl,
    fun W inst o => rfl, fun W inst a => rfl⟩

/-- C9: `output_buffer_to` with the external writer succeeding passes the
whole buffer to it, clears the buffer and returns the flushed byte count;
with the external writer failing it leaves the buffer exactly as it was
and returns that error unmodified. -/
theorem output_buffered_data_flush_or_preserve {ε : Type} (buffer : List Nat)
    (write_all : List Nat → Except ε Unit) :
    (write_all buffer = .ok () →
      output_buffer_to buffer write_all = (.ok buffer.length, [])) ∧
    (∀ e, write_all buffer = .error e →
      output_buffer_to buffer write_all = (.error e, buffer)) := by
  constructor
  · intro h
    simp [output_buffer_to, h]
  · intro e h
    simp [output_buffer_to, h]

/-- Witness for C9 at the two-byte buffer `[97, 98]`, once with an
always-succeeding external writer and once with one failing with error 7. -/
theorem output_buffered_data_flush_or_preserve_witness :
    output_buffer_to (ε := Nat) [97, 98] (fun _ => Except.ok ()) = (Except.ok 2, []) ∧
    output_buffer_to (ε := Nat) [97, 98] (fun _ => Except.error 7) =
      (Except.error 7, [97, 98]) :=
  ⟨(output_buffered_data_flush_or_preserve (ε := Nat) [97, 98] (fun _ => Except.ok ())).1 rfl,
    (output_buffered_data_flush_or_preserve (ε := Nat) [97, 98] (fun _ => Except.error 7)).2
      7 rfl⟩

/-- Joined member list with an explicit separator discipline: the first
element is preceded by `sf`, every later element by exactly one `sr`. -/
def sepJoinFirst (sf sr : List Nat) : List (List Nat) → List Nat
  | [] => []
  | e :: es => sf ++ e ++ sepJoinFirst sr sr es

/-- A sequence of `value(key, payload)` calls on an object writer over the
compact sink, each payload appending its bytes to the buffer (as every
`JSONWriterValue` implementation does). -/
def writeObjectMembers (o : JSONObjectWriter (List Nat)) :
    List (List Nat × List Nat) → JSONObjectWriter (List Nat)
  | [] => o
  | m :: rest => writeObjectMembers (o.value m.1 (fun w => w ++ m.2)) rest

/-- A sequence of `value(payload)` calls on an array writer over the
compact sink. -/
def writeArrayMembers (a : JSONArrayWriter (List Nat)) :
    List (List Nat) → JSONArrayWriter (List Nat)
  | [] => a
  | p :: rest => writeArrayMembers (a.value (fun w => w ++ p)) rest

/-- A sequence of `value(key, payload)` calls on an object writer over the
pretty sink, each payload appending its bytes to the buffer. -/
def writeObjectMembersP (o : JSONObjectWriter PrettyJSONWriter) :
    List (List Nat × List Nat) → JSONObjectWriter PrettyJSONWriter
  | [] => o
  | m :: rest =>
    writeObjectMembersP (o.value m.1 (fun p => { p with buffer := p.buffer ++ m.2 })) rest

/-- A sequence of `value(payload)` calls on an array writer over the
pretty sink. -/
def writeArrayMembersP (a : JSONArrayWriter PrettyJSONWriter) :
    List (List Nat) → JSONArrayWriter PrettyJSONWriter
  | [] => a
  | p :: rest =>
    writeArrayMembersP (a.value (fun q => { q with buffer := q.buffer ++ p })) rest

/-- Compact rendering of one object member: quoted escaped key, colon,
payload. -/
def compactEntry (m : List Nat × List Nat) : List Nat :=
  [34] ++ escapeList m.1 ++ [34, 58] ++ m.2

/-- Pretty rendering of one object member: quoted escaped key, colon,
space, payload. -/
def prettyEntry (m : List Nat × List Nat) : List Nat :=
  [34] ++ escapeList m.1 ++ [34, 58, 32] ++ m.2

lemma begin_object_compact (w : List Nat) :
    json_begin_object (W := List Nat) w = w ++ [123] := rfl

lemma begin_array_compact (w : List Nat) :
    json_begin_array (W := List Nat) w = w ++ [91] := rfl

lemma begin_array_value_compact (w : List Nat) (first : Bool) :
    json_begin_array_value (W := List Nat) w first = if first then w else w ++ [44] := rfl

lemma begin_object_pretty (p : PrettyJSONWriter) :
    json_begin_object (W := PrettyJSONWriter) p =
      { p with depth := p.depth + 1, buffer := p.buffer ++ [123] } := rfl

lemma begin_array_pretty (p : PrettyJSONWriter) :
    json_begin_array (W := PrettyJSONWriter) p =
      { p with depth := p.depth + 1, buffer := p.buffer ++ [91] } := rfl

lemma object_key_compact (w : List Nat) (key : List Nat) (first : Bool) :
    json_object_key (W := List Nat) w key first =
      (if first then w else w ++ [44]) ++ [34] ++ escapeList key ++ [34] ++ [58] := by
  show write_string (if first then w else w ++ [44]) key ++ [58] = _
  rw [write_string_eq]

lemma writeObjectMembers_false (ms : List (List Nat × List Nat)) :
    ∀ w : List Nat, (writeObjectMembers ⟨w, false⟩ ms).writer =
      w ++ sepJoinFirst [44] [44] (ms.map compactEntry) := by
  induction ms with
  | nil => intro w; simp [writeObjectMembers, sepJoinFirst]
  | cons m rest ih =>
    intro w
    rw [writeObjectMembers, JSONObjectWriter.value, JSONObjectWriter.write_key]
    simp only [object_key_compact]
    rw [ih]
    simp [sepJoinFirst, compactEntry]

lemma writeArrayMembers_false (ps : List (List Nat)) :
    ∀ w : List Nat, (writeArrayMembers ⟨w, false⟩ ps).writer =
      w ++ sepJoinFirst [44] [44] ps := by
  induction ps with
  | nil => intro w; simp [writeArrayMembers, sepJoinFirst]
  | cons p rest ih =>
    intro w
    rw [writeArrayMembers, JSONArrayWriter.value, JSONArrayWriter.write_comma]
    show (writeArrayMembers ⟨(w ++ [44]) ++ p, false⟩ rest).writer = _
    rw [ih]
    simp [sepJoinFirst]

/-- Indentation run the pretty sink writes at depth `d` with unit `ind`. -/
def indentRun (ind : List Nat) (d : Nat) : List Nat :=
  (List.replicate d ind).flatten

lemma object_key_pretty (p : PrettyJSONWriter) (key : List Nat) (first : Bool) :
    json_object_key (W := PrettyJSONWriter) p key first =
      { p with buffer := p.buffer ++ (if first then [10] else [44, 10]) ++
          indentRun p.indent p.depth ++ [34] ++ escapeList key ++ [34, 58, 32] } := by
  have h : json_object_key (W := PrettyJSONWriter) p key first =
      { buffer := write_string (p.buffer ++ (if first then [10] else [44, 10]) ++
          indentRun p.indent p.depth) key ++ [58, 32],
        indent := p.indent, depth := p.depth } := rfl
  rw [h, write_string_eq]
  simp

lemma begin_array_value_pretty (p : PrettyJSONWriter) (first : Bool) :
    json_begin_array_value (W := PrettyJSONWriter) p first =
      { p with buffer := p.buffer ++ (if first then [10] else [44, 10]) ++
          indentRun p.indent p.depth } := by
  have h : json_begin_array_value (W := PrettyJSONWriter) p first =
      { buffer := p.buffer ++ (if first then [10] else [44, 10]) ++ indentRun p.indent p.depth,
        indent := p.indent, depth := p.depth } := rfl
  rw [h]

lemma writeObjectMembersP_false (ms : List (List Nat × List Nat)) :
    ∀ q : PrettyJSONWriter, (writeObjectMembersP ⟨q, false⟩ ms).writer =
      { q with buffer := q.buffer ++
          (sepJoinFirst ([44, 10] ++ indentRun q.indent q.depth)
            ([44, 10] ++ indentRun q.indent q.depth) (ms.map prettyEntry)) } := by
  induction ms with
  | nil => intro q; simp [writeObjectMembersP, sepJoinFirst]
  | cons m rest ih =>
    intro q
    rw [writeObjectMembersP, JSONObjectWriter.value, JSONObjectWriter.write_key]
    simp only [object_key_pretty]
    rw [ih]
    simp [sepJoinFirst, prettyEntry]

lemma writeArrayMembersP_false (ps : List (List Nat)) :
    ∀ q : PrettyJSONWriter, (writeArrayMembersP ⟨q, false⟩ ps).writer =
      { q with buffer := q.buffer ++
          (sepJoinFirst ([44, 10] ++ indentRun q.indent q.depth)
            ([44, 10] ++ indentRun q.indent q.depth) ps) } := by
  induction ps with
  | nil => intro q; simp [writeArrayMembersP, sepJoinFirst]
  | cons p rest ih =>
    intro q
    rw [writeArrayMembersP, JSONArrayWriter.value, JSONArrayWriter.write_comma]
    simp only [begin_array_value_pretty]
    rw [ih]
    simp [sepJoinFirst]

/-- C6: separator placement. Over the compact sink, a fresh object (resp.
array) writer receiving any sequence of members emits the members joined
so that the 0th member is preceded by no separator and every later member
by exactly one comma; over the pretty sink, the 0th member is preceded by
newline + indentation (at the opened depth) and every later member by
exactly one comma + newline + indentation. Members go through `value`,
which is `write_key`/`write_comma` followed by the payload, so the same
holds for those entry points and for nested `object`/`array` scopes, whose
payloads are sink appends. -/
theorem separator_before_each_member :
    (∀ (b : List Nat) (ms : List (List Nat × List Nat)),
      (writeObjectMembers (JSONObjectWriter.new b) ms).writer =
        b ++ [123] ++ sepJoinFirst [] [44] (ms.map compactEntry)) ∧
    (∀ (b : List Nat) (ps : List (List Nat)),
      (writeArrayMembers (JSONArrayWriter.new b) ps).writer =
        b ++ [91] ++ sepJoinFirst [] [44] ps) ∧
    (∀ (p : PrettyJSONWriter) (ms : List (List Nat × List Nat)),
      (writeObjectMembersP (JSONObjectWriter.new p) ms).writer.buffer =
        p.buffer ++ [123] ++
          sepJoinFirst ([10] ++ indentRun p.indent (p.depth + 1))
            ([44, 10] ++ indentRun p.indent (p.depth + 1)) (ms.map prettyEntry)) ∧
    (∀ (p : PrettyJSONWriter) (ps : List (List Nat)),
      (writeArrayMembersP (JSONArrayWriter.new p) ps).writer.buffer =
        p.buffer ++ [91] ++
          sepJoinFirst ([10] ++ indentRun p.indent (p.depth + 1))
            ([44, 10] ++ indentRun p.indent (p.depth + 1)) ps) := by
  refine ⟨fun b ms => ?_, fun b ps => ?_, fun p ms => ?_, fun p ps => ?_⟩
  · cases ms with
    | nil => simp [writeObjectMembers, JSONObjectWriter.new, sepJoinFirst,
        begin_object_compact]
    | cons m rest =>
      rw [writeObjectMembers, JSONObjectWriter.value, JSONObjectWriter.write_key]
      simp only [JSONObjectWriter.new, object_key_compact, begin_object_compact]
      rw [writeObjectMembers_false]
      simp [sepJoinFirst, compactEntry]
  · cases ps with
    | nil => simp [writeArrayMembers, JSONArrayWriter.new, sepJoinFirst,
        begin_array_compact]
    | cons p rest =>
      rw [writeArrayMembers, JSONArrayWriter.value, JSONArrayWriter.write_comma]
      simp only [JSONArrayWriter.new, begin_array_value_compact, begin_array_compact]
      rw [writeArrayMembers_false]
      simp [sepJoinFirst]
  · cases ms with
    | nil => simp [writeObjectMembersP, JSONObjectWriter.new, sepJoinFirst,
        begin_object_pretty]
    | cons m rest =>
      rw [writeObjectMembersP, JSONObjectWriter.value, JSONObjectWriter.write_key]
      simp only [JSONObjectWriter.new, object_key_pretty, begin_object_pretty]
      rw [writeObjectMembersP_false]
      simp [sepJoinFirst, prettyEntry]
  · cases ps with
    | nil => simp [writeArrayMembersP, JSONArrayWriter.new, sepJoinFirst,
        begin_array_pretty]
    | cons p0 rest =>
      rw [writeArrayMembersP, JSONArrayWriter.value, JSONArrayWriter.write_comma]
      simp only [JSONArrayWriter.new, begin_array_value_pretty, begin_array_pretty]
      rw [writeArrayMembersP_false]
      simp [sepJoinFirst]

/-- Modelled from the spec: the value of one hex digit byte, as a
conforming JSON parser reads it (digits, upper- and lowercase letters). -/
def hexVal (c : Nat) : Option Nat :=
  if 48 ≤ c ∧ c ≤ 57 then some (c - 48)
  else if 65 ≤ c ∧ c ≤ 70 then some (c - 55)
  else if 97 ≤ c ∧ c ≤ 102 then some (c - 87)
  else none

/-- Modelled from the spec: the inverse of a two-character escape, as a
conforming JSON parser reads it. -/
def unescChar (c : Nat) : Option Nat :=
  if c = 34 then some 34
  else if c = 92 then some 92
  else if c = 47 then some 47
  else if c = 98 then some 8
  else if c = 116 then some 9
  else if c = 110 then some 10
  else if c = 102 then some 12
  else if c = 114 then some 13
  else none

/-- Modelled from the spec: a conforming JSON string-body parser reversing
the escape table — a backslash introduces either `uXXXX` (four hex digits,
yielding that code unit) or a two-character escape; every other byte is
taken literally. Malformed input yields `none`. -/
def unescape : List Nat → Option (List Nat)
  | [] => some []
  | c :: rest =>
    if c = 92 then
      match rest with
      | [] => none
      | d :: rest2 =>
        if d = 117 then
          match rest2 with
          | h1 :: h2 :: h3 :: h4 :: rest3 =>
            match hexVal h1, hexVal h2, hexVal h3, hexVal h4 with
            | some a, some b, some c2, some d2 =>
              Option.map (fun t => (a * 4096 + b * 256 + c2 * 16 + d2) :: t) (unescape rest3)
            | _, _, _, _ => none
          | _ => none
        else
          match unescChar d with
          | some u => Option.map (fun t => u :: t) (unescape rest2)
          | none => none
    else Option.map (fun t => c :: t) (unescape rest)

/-- Modelled from the spec: decoding a complete JSON string token — strip
the surrounding quotes, then reverse the escapes. -/
def decodeJSONString (bs : List Nat) : Option (List Nat) :=
  match bs with
  | 34 :: rest =>
    if rest.getLast? = some 34 then unescape rest.dropLast else none
  | _ => none

lemma hexVal_HEX : ∀ d, d < 16 → hexVal (HEX.getD d 0) = some d := by decide

lemma unescape_escByte (b : Nat) (rest : List Nat) :
    unescape (escByte b ++ rest) = Option.map (fun t => b :: t) (unescape rest) := by
  by_cases h34 : b = 34
  · subst h34
    have h : escByte 34 ++ rest = 92 :: 34 :: rest := by simp [escByte, REPLACEMENTS]
    rw [h, unescape.eq_def]
    simp [unescChar]
  by_cases h92 : b = 92
  · subst h92
    have h : escByte 92 ++ rest = 92 :: 92 :: rest := by simp [escByte, REPLACEMENTS]
    rw [h, unescape.eq_def]
    simp [unescChar]
  by_cases h47 : b = 47
  · subst h47
    have h : escByte 47 ++ rest = 92 :: 47 :: rest := by simp [escByte, REPLACEMENTS]
    rw [h, unescape.eq_def]
    simp [unescChar]
  by_cases h8 : b = 8
  · subst h8
    have h : escByte 8 ++ rest = 92 :: 98 :: rest := by simp [escByte, REPLACEMENTS]
    rw [h, unescape.eq_def]
    simp [unescChar]
  by_cases h12 : b = 12
  · subst h12
    have h : escByte 12 ++ rest = 92 :: 102 :: rest := by simp [escByte, REPLACEMENTS]
    rw [h, unescape.eq_def]
    simp [unescChar]
  by_cases h10 : b = 10
  · subst h10
    have h : escByte 10 ++ rest = 92 :: 110 :: rest := by simp [escByte, REPLACEMENTS]
    rw [h, unescape.eq_def]
    simp [unescChar]
  by_cases h13 : b = 13
  · subst h13
    have h : escByte 13 ++ rest = 92 :: 114 :: rest := by simp [escByte, REPLACEMENTS]
    rw [h, unescape.eq_def]
    simp [unescChar]
  by_cases h9 : b = 9
  · subst h9
    have h : escByte 9 ++ rest = 92 :: 116 :: rest := by simp [escByte, REPLACEMENTS]
    rw [h, unescape.eq_def]
    simp [unescChar]
  by_cases hctl : b < 32
  · have hesc : escByte b ++ rest =
        92 :: 117 :: 48 :: 48 :: HEX.getD (b / 16) 0 :: HEX.getD (b % 16) 0 :: rest := by
      have hq : b / 16 % 16 = b / 16 := by omega
      simp [escByte, REPLACEMENTS, h34, h92, h47, h8, h12, h10, h13, h9, hctl, hq]
    rw [hesc, unescape.eq_def]
    have e48 : hexVal 48 = some 0 := by rfl
    have hd : hexVal (HEX.getD (b / 16) 0) = some (b / 16) := hexVal_HEX _ (by omega)
    have hm : hexVal (HEX.getD (b % 16) 0) = some (b % 16) := hexVal_HEX _ (by omega)
    simp only [e48, hd, hm]
    have hval : b / 16 * 16 + b % 16 = b := by omega
    simp [hval]
  · have hesc : escByte b ++ rest = b :: rest := by
      simp [escByte, REPLACEMENTS, h34, h92, h47, h8, h12, h10, h13, h9, hctl]
    rw [hesc, unescape.eq_def]
    simp [h92]

lemma unescape_escapeList (s : List Nat) :
    unescape (escapeList s) = some s := by
  have h : ∀ rest, unescape (escapeList s ++ rest) =
      Option.map (fun t => s ++ t) (unescape rest) := by
    induction s with
    | nil => intro rest; simp [escapeList]
    | cons b tail ih =>
      intro rest
      rw [escapeList, List.append_assoc, unescape_escByte, ih rest]
      cases unescape rest <;> simp
  have := h []
  simpa [unescape] using this

/-- C8: decoding the output of `write_string` on the empty buffer with a
conforming JSON string parser — strip the surrounding quotes, reverse the
escape table — recovers the input exactly: `unescape (escape s) = s` for
every byte string `s`. -/
theorem unescape_escape_roundtrip (s : List Nat) :
    decodeJSONString (write_string [] s) = some s := by
  have h1 : write_string [] s = 34 :: (escapeList s ++ [34]) := by
    rw [write_string_eq]
    simp
  have h2 : ∀ rest : List Nat, decodeJSONString (34 :: rest) =
      if rest.getLast? = some 34 then unescape rest.dropLast else none := fun rest => rfl
  rw [h1, h2, List.getLast?_concat, if_pos rfl, List.dropLast_concat]
  exact unescape_escapeList s

/-- C10: every operation of the compact `String` sink and of the pretty
sink only appends to the buffer — for every prior buffer content the
content after the call extends it, so no existing byte is modified or
removed. Stated for all twelve operations of each sink. -/
theorem sink_operations_append_only :
    (∀ b : List Nat, ∃ t, json_null (W := List Nat) b = b ++ t) ∧
    (∀ (b : List Nat) (v : Bool), ∃ t, json_bool (W := List Nat) b v = b ++ t) ∧
    (∀ (b v : List Nat), ∃ t, json_string (W := List Nat) b v = b ++ t) ∧
    (∀ (b : List Nat) (v : F64), ∃ t, json_number_f64 (W := List Nat) b v = b ++ t) ∧
    (∀ (b v : List Nat), ∃ t, json_number_str (W := List Nat) b v = b ++ t) ∧
    (∀ b : List Nat, ∃ t, json_begin_object (W := List Nat) b = b ++ t) ∧
    (∀ (b : List Nat) (e : Bool), ∃ t, json_end_object (W := List Nat) b e = b ++ t) ∧
    (∀ b : List Nat, ∃ t, json_begin_array (W := List Nat) b = b ++ t) ∧
    (∀ (b : List Nat) (e : Bool), ∃ t, json_end_array (W := List Nat) b e = b ++ t) ∧
    (∀ (b : List Nat) (first : Bool), ∃ t,
      json_begin_array_value (W := List Nat) b first = b ++ t) ∧
    (∀ (b key : List Nat) (first : Bool), ∃ t,
      json_object_key (W := List Nat) b key first = b ++ t) ∧
    (∀ (b v : List Nat), ∃ t, json_fragment (W := List Nat) b v = b ++ t) ∧
    (∀ p : PrettyJSONWriter, ∃ t, (json_null p).buffer = p.buffer ++ t) ∧
    (∀ (p : PrettyJSONWriter) (v : Bool), ∃ t, (json_bool p v).buffer = p.buffer ++ t) ∧
    (∀ (p : PrettyJSONWriter) (v : List Nat), ∃ t,
      (json_string p v).buffer = p.buffer ++ t) ∧
    (∀ (p : PrettyJSONWriter) (v : F64), ∃ t,
      (json_number_f64 p v).buffer = p.buffer ++ t) ∧
    (∀ (p : PrettyJSONWriter) (v : List Nat), ∃ t,
      (json_number_str p v).buffer = p.buffer ++ t) ∧
    (∀ p : PrettyJSONWriter, ∃ t, (json_begin_object p).buffer = p.buffer ++ t) ∧
    (∀ (p : PrettyJSONWriter) (e : Bool), ∃ t,
      (json_end_object p e).buffer = p.buffer ++ t) ∧
    (∀ p : PrettyJSONWriter, ∃ t, (json_begin_array p).buffer = p.buffer ++ t) ∧
    (∀ (p : PrettyJSONWriter) (e : Bool), ∃ t,
      (json_end_array p e).buffer = p.buffer ++ t) ∧
    (∀ (p : PrettyJSONWriter) (first : Bool), ∃ t,
      (json_begin_array_value p first).buffer = p.buffer ++ t) ∧
    (∀ (p : PrettyJSONWriter) (key : List Nat) (first : Bool), ∃ t,
      (json_object_key p key first).buffer = p.buffer ++ t) ∧
    (∀ (p : PrettyJSONWriter) (v : List Nat), ∃ t,
      (json_fragment p v).buffer = p.buffer ++ t) := by
  refine ⟨fun b => ⟨_, rfl⟩, fun b v => by cases v <;> exact ⟨_, rfl⟩,
    fun b v => ⟨[34] ++ escapeList v ++ [34], ?_⟩,
    fun b v => by cases v <;> exact ⟨_, rfl⟩,
    fun b v => ⟨_, rfl⟩, fun b => ⟨_, rfl⟩, fun b e => ⟨_, rfl⟩, fun b => ⟨_, rfl⟩,
    fun b e => ⟨_, rfl⟩,
    fun b first => by
      cases first
      · exact ⟨_, rfl⟩
      · exact ⟨[], by simp [begin_array_value_compact]⟩,
    fun b key first => by
      cases first
      · exact ⟨[44] ++ ([34] ++ escapeList key ++ [34] ++ [58]), by
          rw [object_key_compact]
          simp⟩
      · exact ⟨[34] ++ escapeList key ++ [34] ++ [58], by
          rw [object_key_compact]
          simp⟩,
    fun b v => ⟨_, rfl⟩,
    fun p => ⟨_, rfl⟩, fun p v => by cases v <;> exact ⟨_, rfl⟩,
    fun p v => ⟨[34] ++ escapeList v ++ [34], ?_⟩,
    fun p v => by cases v <;> exact ⟨_, rfl⟩,
    fun p v => ⟨_, rfl⟩, fun p => ⟨_, rfl⟩,
    fun p e => by
      cases e
      · exact ⟨[10] ++ indentRun p.indent (p.depth - 1) ++ [125], by
          show p.buffer ++ [10] ++ indentRun p.indent (p.depth - 1) ++ [125] = _
          simp⟩
      · exact ⟨[125], rfl⟩,
    fun p => ⟨_, rfl⟩,
    fun p e => by
      cases e
      · exact ⟨[10] ++ indentRun p.indent (p.depth - 1) ++ [93], by
          show p.buffer ++ [10] ++ indentRun p.indent (p.depth - 1) ++ [93] = _
          simp⟩
      · exact ⟨[93], rfl⟩,
    fun p first => by
      cases first
      · exact ⟨[44, 10] ++ indentRun p.indent p.depth, by
          rw [begin_array_value_pretty]
          simp⟩
      · exact ⟨[10] ++ indentRun p.indent p.depth, by
          rw [begin_array_value_pretty]
          simp⟩,
    fun p key first => by
      cases first
      · exact ⟨[44, 10] ++ indentRun p.indent p.depth ++ [34] ++ escapeList key ++
            [34, 58, 32], by
          rw [object_key_pretty]
          simp⟩
      · exact ⟨[10] ++ indentRun p.indent p.depth ++ [34] ++ escapeList key ++ [34, 58, 32], by
          rw [object_key_pretty]
          simp⟩,
    fun p v => ⟨_, rfl⟩⟩
  · show write_string b v = _
    rw [write_string_eq]
    simp
  · show write_string p.buffer v = _
    rw [write_string_eq]
    simp
